import Mathlib

/-!
Verification of the résumé relevance-check application (`streamlit_app.py`).

The development shallowly embeds the core logic of the program:
Python strings are modelled as `List Char` (`PyStr`), Python `set` values
over strings as `Finset PyStr`, Python numbers as `ℚ`, and the fallible
parts of a UI action as `Except`-valued parameters.  External library
calls (`hashlib.md5`, `datetime.now`) are abstracted as parameters of the
functions that use them.  Python's `str.lower`/`str.upper` are modelled
as per-character ASCII case mapping and `\s` as the six ASCII whitespace
characters; the regular-expression searches of the parsers are embedded
with the semantics they have on the output of `_clean_text`, which
collapses every whitespace run to a single space (so the embedded input
never contains a newline — this invariant is proved below as
`cleanChars_no_newline`).
-/

/-- Python strings are modelled as lists of characters. -/
abbrev PyStr := List Char

/-- The ASCII characters matched by Python's regex class `\s`. -/
def isPySpace (c : Char) : Bool :=
  c = ' ' || c = '\t' || c = '\n' || c = '\r' || c = '\x0b' || c = '\x0c'

/-- Model of Python `str.lower` on one character (ASCII case mapping,
as in `Char.toLower`). -/
def lowerChar (c : Char) : Char := c.toLower

/-- Model of Python `str.upper` on one character. -/
def upperChar (c : Char) : Char := c.toUpper

/-- Model of Python `str.lower`. -/
def lowerStr (s : PyStr) : PyStr := s.map lowerChar

/-- Model of Python `str.upper`. -/
def upperStr (s : PyStr) : PyStr := s.map upperChar

/-- Python `str.strip()`: drop whitespace from both ends. -/
def pyStrip (s : PyStr) : PyStr :=
  ((s.dropWhile isPySpace).reverse.dropWhile isPySpace).reverse

/-- Python `str.split(sep)` for a one-character separator: splits on every
occurrence and keeps empty pieces (`"".split(sep) = [""]`). -/
def pySplitOn (sep : Char) : PyStr → List PyStr
  | [] => [[]]
  | c :: rest =>
    if c = sep then [] :: pySplitOn sep rest
    else
      match pySplitOn sep rest with
      | g :: gs => (c :: g) :: gs
      | [] => [[c]]

/-- Python `re.split` on a character class: splits at every character of
`delims`, keeping empty pieces. -/
def pySplitAny (delims : List Char) : PyStr → List PyStr
  | [] => [[]]
  | c :: rest =>
    if delims.contains c then [] :: pySplitAny delims rest
    else
      match pySplitAny delims rest with
      | g :: gs => (c :: g) :: gs
      | [] => [[c]]

/-- Python `str.split()` with no argument: the whitespace-separated words,
empty pieces dropped. -/
def pyWordsAux (cur : PyStr) : PyStr → List PyStr
  | [] => if cur = [] then [] else [cur.reverse]
  | c :: rest =>
    if isPySpace c then
      if cur = [] then pyWordsAux [] rest else cur.reverse :: pyWordsAux [] rest
    else pyWordsAux (c :: cur) rest

/-- Python `str.split()` with no argument. -/
def pyWords (s : PyStr) : List PyStr := pyWordsAux [] s

/-- Does `pat` occur at the start of `s`? -/
def startsWithStr : PyStr → PyStr → Bool
  | [], _ => true
  | _ :: _, [] => false
  | a :: as, b :: bs => a = b && startsWithStr as bs

/-- Python `needle in hay` substring test. -/
def occursIn (needle : PyStr) : PyStr → Bool
  | [] => startsWithStr needle []
  | hay@(_ :: rest) => startsWithStr needle hay || occursIn needle rest

/-- Auxiliary step of `_clean_text`: collapse runs of spaces to one space
(run after every whitespace character has been mapped to a space). -/
def squeezeSpaces : PyStr → PyStr
  | [] => []
  | [c] => [c]
  | c :: d :: rest =>
    if c = ' ' && d = ' ' then squeezeSpaces (d :: rest)
    else c :: squeezeSpaces (d :: rest)

/-- Strip leading and trailing spaces (every whitespace character of the
input of `_clean_text` has already been mapped to a space). -/
def trimSpaces (s : PyStr) : PyStr :=
  ((s.dropWhile (· = ' ')).reverse.dropWhile (· = ' ')).reverse

/-- Model of `_clean_text` of both parsers: `re.sub(r'\s+', ' ', text).strip()` —
every maximal whitespace run is replaced by a single space and the result
is stripped. -/
def cleanChars (s : PyStr) : PyStr :=
  trimSpaces (squeezeSpaces (s.map (fun c => if isPySpace c then ' ' else c)))

/-- Python `list(set(...))` on a list of strings: deduplication.  CPython
iterates a `set` in an unspecified order; the embedding fixes the order
that `List.dedup` produces, which no claim depends on. -/
def pySetList (l : List PyStr) : List PyStr := l.dedup

/-!
Regex search machinery

The parsers use `re.search` with patterns of the shape
`<heading>\s*:?\s*([^\n]+(?:\n[^\n]*)*?)(?:\n\s*\n|\Z)` (section
patterns) or `<heading>\s*:?\s*([^\n]+)` (title patterns), compiled with
`re.IGNORECASE`.  They are only ever applied to the output of
`_clean_text`, which contains no newline, so on every actual input the
two shapes coincide: the capture extends to the end of the text.  The
embedding implements exactly these semantics, including the backtracking
give-back of `\s*:?\s*` when the heading sits at the end of the text
(the capture group needs at least one character, which it then steals
from the separator).
-/

/-- Case-insensitive literal match: if the lowercased text starts with
`lit` (given lowercase), return the rest of the text. -/
def matchLit (lit : PyStr) (s : PyStr) : Option PyStr :=
  if (s.take lit.length).map lowerChar = lit then some (s.drop lit.length) else none

/-- Greedy consumption of `\s*:?\s*`: maximal whitespace run, optional
colon, maximal whitespace run. -/
def sepTail (r : PyStr) : PyStr :=
  match r.dropWhile isPySpace with
  | ':' :: rest => rest.dropWhile isPySpace
  | w1 => w1

/-- After the heading, `\s*:?\s*` is consumed greedily; if that exhausts
the text, backtracking hands the last consumed character to the capture
group `[^\n]+`.  Returns the (always non-empty) capture, or `none` when
there is nothing left at all. -/
def capAfterSep (r : PyStr) : Option PyStr :=
  if r = [] then none
  else if sepTail r = [] then some [r.getLastD ' ']
  else some (sepTail r)

/-- Scan the text left to right (`re.search` leftmost-match rule); at each
position try the heading alternatives in priority order followed by
`\s*:?\s*` and the capture. -/
def searchCapture (head : PyStr → List PyStr) : PyStr → Option PyStr
  | [] => (head []).findSome? capAfterSep
  | s@(_ :: rest) =>
    match (head s).findSome? capAfterSep with
    | some cap => some cap
    | none => searchCapture head rest

/-- Heading `skills?` — the greedy optional `s` yields two alternatives,
longest first. -/
def headSkills (s : PyStr) : List PyStr :=
  match matchLit "skill".toList s with
  | none => []
  | some r =>
    match r with
    | c :: r2 => if lowerChar c = 's' then [r2, r] else [r]
    | [] => [r]

/-- Heading `experience`. -/
def headExperience (s : PyStr) : List PyStr :=
  (matchLit "experience".toList s).toList

/-- Heading `projects?`. -/
def headProjects (s : PyStr) : List PyStr :=
  match matchLit "project".toList s with
  | none => []
  | some r =>
    match r with
    | c :: r2 => if lowerChar c = 's' then [r2, r] else [r]
    | [] => [r]

/-- Heading `job\s*title`. -/
def headJobTitle (s : PyStr) : List PyStr :=
  ((matchLit "job".toList s).bind fun r =>
    matchLit "title".toList (r.dropWhile isPySpace)).toList

/-- Heading `position`. -/
def headPosition (s : PyStr) : List PyStr :=
  (matchLit "position".toList s).toList

/-- Heading `role`. -/
def headRole (s : PyStr) : List PyStr :=
  (matchLit "role".toList s).toList

/-- Heading `required\s*skills?`. -/
def headRequiredSkills (s : PyStr) : List PyStr :=
  match (matchLit "required".toList s).bind
      (fun r => matchLit "skill".toList (r.dropWhile isPySpace)) with
  | none => []
  | some r =>
    match r with
    | c :: r2 => if lowerChar c = 's' then [r2, r] else [r]
    | [] => [r]

/-- Heading `must\s*have`. -/
def headMustHave (s : PyStr) : List PyStr :=
  ((matchLit "must".toList s).bind fun r =>
    matchLit "have".toList (r.dropWhile isPySpace)).toList

/-- Heading `mandatory`. -/
def headMandatory (s : PyStr) : List PyStr :=
  (matchLit "mandatory".toList s).toList

/-- Heading `good\s*to\s*have`. -/
def headGoodToHave (s : PyStr) : List PyStr :=
  ((matchLit "good".toList s).bind fun r =>
    (matchLit "to".toList (r.dropWhile isPySpace)).bind fun r2 =>
      matchLit "have".toList (r2.dropWhile isPySpace)).toList

/-- Heading `preferred`. -/
def headPreferred (s : PyStr) : List PyStr :=
  (matchLit "preferred".toList s).toList

/-- Heading `nice\s*to\s*have`. -/
def headNiceToHave (s : PyStr) : List PyStr :=
  ((matchLit "nice".toList s).bind fun r =>
    (matchLit "to".toList (r.dropWhile isPySpace)).bind fun r2 =>
      matchLit "have".toList (r2.dropWhile isPySpace)).toList

/-!
Data model

Python dataclasses.  The `experience`, `education` and `projects` entries
are one-key dictionaries in the source (`{"description": ...}` /
`{"degree": ...}`); they are modelled by their single payload string.
`feedback` and `suggestions` of `EvaluationResult` are presentation
strings that no claim refers to; they are not modelled.  `matched_skills`
and `missing_skills` are built from Python `set`s whose iteration order
is unspecified, so they are modelled as `Finset`s.
-/

structure Resume where
  id : PyStr
  name : PyStr
  email : PyStr
  skills : List PyStr
  experience : List PyStr
  education : List PyStr
  projects : List PyStr
  raw_text : PyStr
deriving DecidableEq

structure JobDescription where
  id : PyStr
  title : PyStr
  company : PyStr
  must_have_skills : List PyStr
  good_to_have_skills : List PyStr
  experience_required : PyStr
  description : PyStr
  location : PyStr
deriving DecidableEq

structure EvaluationResult where
  resume_id : PyStr
  job_id : PyStr
  relevance_score : ℚ
  matched_skills : Finset PyStr
  missing_skills : Finset PyStr
  verdict : PyStr
deriving DecidableEq

/-!
Email regex

`_extract_email` uses `\b[A-Za-z0-9._%+-]+@[A-Za-z0-9.-]+\.[A-Z|a-z]{2,}\b`
(note the literal `|` inside the last class) and returns the first match,
else the sentinel.  The embedding implements the backtracking semantics:
the domain run is consumed greedily and gives characters back until the
`\.` can match (so the `\.` matches the rightmost eligible dot), and the
final class run gives characters back until the trailing `\b` holds.
-/

/-- Python regex `\w` (ASCII). -/
def isWordChar (c : Char) : Bool := c.isAlphanum || c = '_'

/-- Word-character test for an optional character (`none` at the ends of
the text counts as a non-word position). -/
def isWordOpt : Option Char → Bool
  | none => false
  | some c => isWordChar c

/-- Class `[A-Za-z0-9._%+-]`. -/
def isLocalChar (c : Char) : Bool :=
  c.isAlphanum || c = '.' || c = '_' || c = '%' || c = '+' || c = '-'

/-- Class `[A-Za-z0-9.-]`. -/
def isDomainChar (c : Char) : Bool := c.isAlphanum || c = '.' || c = '-'

/-- Class `[A-Z|a-z]` — letters and the literal `|`. -/
def isTldChar (c : Char) : Bool := c.isAlpha || c = '|'

/-- Greedy `{2,}` run with trailing `\b`: try the whole run `t` (followed
by `next`), shortening from the right until the boundary holds; at least
two characters are required. -/
def tldPick (t : PyStr) (next : Option Char) : Option PyStr :=
  if _h : t.length < 2 then none
  else if isWordOpt t.getLast? != isWordOpt next then some t
  else tldPick t.dropLast t.getLast?
termination_by t.length
decreasing_by
  simp [List.length_dropLast]
  omega

/-- Try to place the `\.` at index `i` of the string `afterAt` that
follows the `@`; the part before `i` is the `[A-Za-z0-9.-]+` match. -/
def tryDotAt (afterAt : PyStr) (i : ℕ) : Option PyStr :=
  let afterDot := afterAt.drop (i + 1)
  let t := afterDot.takeWhile isTldChar
  match tldPick t (afterDot.drop t.length).head? with
  | some tl => some (afterAt.take i ++ '.' :: tl)
  | none => none

/-- Attempt an email match at the current position, `prev` being the
character before it (for the leading `\b`). -/
def emailAt (prev : Option Char) (s : PyStr) : Option PyStr :=
  let loc := s.takeWhile isLocalChar
  if loc = [] then none
  else if isWordOpt prev == isWordOpt s.head? then none
  else
    match s.drop loc.length with
    | '@' :: afterAt =>
      let d := afterAt.takeWhile isDomainChar
      if d = [] then none
      else
        let dots := ((List.range d.length).filter
          (fun i => decide (1 ≤ i) && (d.get? i == some '.'))).reverse
        match dots.findSome? (tryDotAt afterAt) with
        | some dm => some (loc ++ '@' :: dm)
        | none => none
    | _ => none

/-- Leftmost email match (`findall`, first element). -/
def findEmail : Option Char → PyStr → Option PyStr
  | _, [] => none
  | prev, s@(c :: rest) =>
    match emailAt prev s with
    | some m => some m
    | none => findEmail (some c) rest

/-!
Résumé parser
-/

/-- The fixed vocabulary of `_extract_skills`. -/
def techSkillsVocab : List PyStr :=
  ["python", "java", "javascript", "react", "angular", "vue", "node.js",
   "django", "flask", "spring", "docker", "kubernetes", "aws", "azure",
   "gcp", "git", "jenkins", "machine learning", "deep learning", "nlp",
   "data science", "sql", "mongodb", "postgresql", "mysql", "html", "css",
   "tensorflow", "pytorch", "pandas", "numpy", "scikit-learn", "c++",
   "devops", "agile", "scrum", "analytics", "tableau", "powerbi"].map String.toList

/-- The delimiter class `[,;\|\n•\-]` of the skill tokenizers. -/
def skillDelims : List Char := [',', ';', '|', '\n', '•', '-']

/-- The degree keywords of `_extract_education`. -/
def degreesVocab : List PyStr :=
  ["bachelor", "master", "phd", "b.tech", "m.tech", "mba", "b.e", "m.e",
   "bsc", "msc"].map String.toList

/-- The token loop of `_extract_skills`: each raw token is stripped and
lowercased, kept when longer than two characters and not already present
in the accumulated list. -/
def addSectionSkills (acc : List PyStr) : List PyStr → List PyStr
  | [] => acc
  | sk :: rest =>
    let c := lowerStr (pyStrip sk)
    if c.length > 2 && !(acc.contains c) then addSectionSkills (acc ++ [c]) rest
    else addSectionSkills acc rest

def ResumeParser.extractName (t : PyStr) : PyStr :=
  let lines := pySplitOn '\n' t
  let firstLine := pyStrip (lines.headD [])
  if (pyWords firstLine).length ≤ 4 ∧ firstLine.length > 2 then firstLine
  else "Unknown Candidate".toList

def ResumeParser.extractEmail (t : PyStr) : PyStr :=
  (findEmail none t).getD "No email found".toList

def ResumeParser.extractSkills (t : PyStr) : List PyStr :=
  let text_lower := lowerStr t
  let vocabHits := techSkillsVocab.filter (fun sk => occursIn sk text_lower)
  let skills := match searchCapture headSkills t with
    | some cap => addSectionSkills vocabHits (pySplitAny skillDelims cap)
    | none => vocabHits
  pySetList skills

def ResumeParser.extractExperience (t : PyStr) : List PyStr :=
  match searchCapture headExperience t with
  | some cap => [cap.take 300]
  | none => []

def ResumeParser.extractEducation (t : PyStr) : List PyStr :=
  (degreesVocab.filter (fun d => occursIn d (lowerStr t))).map upperStr

def ResumeParser.extractProjects (t : PyStr) : List PyStr :=
  match searchCapture headProjects t with
  | some cap => [cap.take 300]
  | none => []

/-- Model of `ResumeParser.parse`.  The identifier is
`md5(f"{text[:100]}_{datetime.now()}").hexdigest()[:12]`; the md5 hex
digest and the current time are external effects, passed in as the
parameters `md5Hex` and `now`. -/
def ResumeParser.parse (md5Hex : PyStr → PyStr) (now : PyStr) (text : PyStr) : Resume :=
  let t := cleanChars text
  { id := (md5Hex (t.take 100 ++ "_".toList ++ now)).take 12
    name := ResumeParser.extractName t
    email := ResumeParser.extractEmail t
    skills := ResumeParser.extractSkills t
    experience := ResumeParser.extractExperience t
    education := ResumeParser.extractEducation t
    projects := ResumeParser.extractProjects t
    raw_text := t }

/-!
Job-description parser
-/

/-- Group `(\d+[\+\-]?\d*)` of the experience-requirement patterns:
digits, an optional sign, more digits.  Returns the capture and the rest
of the text. -/
def matchNumGroup (s : PyStr) : Option (PyStr × PyStr) :=
  let d1 := s.takeWhile Char.isDigit
  if d1 = [] then none
  else
    match s.drop d1.length with
    | c :: r2 =>
      if c = '+' || c = '-' then
        let d2 := r2.takeWhile Char.isDigit
        some (d1 ++ c :: d2, r2.drop d2.length)
      else some (d1, s.drop d1.length)
    | [] => some (d1, [])

/-- Pattern `(\d+[\+\-]?\d*)\s*years?\s*(?:of\s*)?experience` at the
current position. -/
def expReqP1At (s : PyStr) : Option PyStr :=
  match matchNumGroup s with
  | none => none
  | some (g, rest) =>
    let r := rest.dropWhile isPySpace
    match matchLit "year".toList r with
    | none => none
    | some ry =>
      let cands := match ry with
        | c :: ry2 => if lowerChar c = 's' then [ry2, ry] else [ry]
        | [] => [ry]
      cands.findSome? fun r2 =>
        let r3 := r2.dropWhile isPySpace
        match (matchLit "of".toList r3).bind
            (fun r4 => matchLit "experience".toList (r4.dropWhile isPySpace)) with
        | some _ => some g
        | none => (matchLit "experience".toList r3).map fun _ => g

/-- Pattern `experience\s*:?\s*(\d+[\+\-]?\d*)\s*years?` at the current
position. -/
def expReqP2At (s : PyStr) : Option PyStr :=
  (matchLit "experience".toList s).bind fun r =>
    let r1 := r.dropWhile isPySpace
    let r2 := match r1 with
      | ':' :: rr => rr.dropWhile isPySpace
      | _ => r1
    match matchNumGroup r2 with
    | none => none
    | some (g, rest) =>
      (matchLit "year".toList (rest.dropWhile isPySpace)).map fun _ => g

/-- Leftmost match of a position-wise matcher (`re.search`). -/
def scanFirst (f : PyStr → Option PyStr) : PyStr → Option PyStr
  | [] => f []
  | s@(_ :: rest) =>
    match f s with
    | some g => some g
    | none => scanFirst f rest

def JobDescriptionParser.extractTitle (t : PyStr) : PyStr :=
  match searchCapture headJobTitle t with
  | some g => pyStrip g
  | none =>
    match searchCapture headPosition t with
    | some g => pyStrip g
    | none =>
      match searchCapture headRole t with
      | some g => pyStrip g
      | none =>
        let lines := pySplitOn '\n' t
        if (lines.headD []).length ≤ 80 then pyStrip (lines.headD [])
        else "Software Developer".toList

/-- The token list comprehension shared by the two job-description skill
extractors: `[s.strip().lower() for s in extracted if s.strip() and
len(s.strip()) > 2]`. -/
def sectionTokens (cap : PyStr) : List PyStr :=
  (pySplitAny skillDelims cap).filterMap fun s =>
    let st := pyStrip s
    if st ≠ [] ∧ st.length > 2 then some (lowerStr st) else none

/-- The fallback vocabulary of `_extract_must_have_skills`. -/
def jdFallbackSkills : List PyStr :=
  ["python", "java", "javascript", "react", "sql", "aws", "docker"].map String.toList

def JobDescriptionParser.extractMustHaveSkills (t : PyStr) : List PyStr :=
  let fromSection := match searchCapture headRequiredSkills t with
    | some cap => sectionTokens cap
    | none =>
      match searchCapture headMustHave t with
      | some cap => sectionTokens cap
      | none =>
        match searchCapture headMandatory t with
        | some cap => sectionTokens cap
        | none => []
  let skills := if fromSection = [] then
      jdFallbackSkills.filter (fun sk => occursIn sk (lowerStr t))
    else fromSection
  (pySetList skills).take 15

def JobDescriptionParser.extractGoodToHaveSkills (t : PyStr) : List PyStr :=
  let fromSection := match searchCapture headGoodToHave t with
    | some cap => sectionTokens cap
    | none =>
      match searchCapture headPreferred t with
      | some cap => sectionTokens cap
      | none =>
        match searchCapture headNiceToHave t with
        | some cap => sectionTokens cap
        | none => []
  (pySetList fromSection).take 10

def JobDescriptionParser.extractExperienceRequirement (t : PyStr) : PyStr :=
  match scanFirst expReqP1At t with
  | some g => g ++ " years".toList
  | none =>
    match scanFirst expReqP2At t with
    | some g => g ++ " years".toList
    | none => "Not specified".toList

/-- Model of `JobDescriptionParser.parse`; as for the résumé parser, the md5 hex
digest and the current time are passed in as parameters. -/
def JobDescriptionParser.parse (md5Hex : PyStr → PyStr) (now : PyStr)
    (text company location : PyStr) : JobDescription :=
  let t := cleanChars text
  { id := (md5Hex (company ++ "_".toList ++ t.take 100 ++ "_".toList ++ now)).take 12
    title := JobDescriptionParser.extractTitle t
    company := company
    must_have_skills := JobDescriptionParser.extractMustHaveSkills t
    good_to_have_skills := JobDescriptionParser.extractGoodToHaveSkills t
    experience_required := JobDescriptionParser.extractExperienceRequirement t
    description := t
    location := location }

/-!
Relevance evaluator

Scores are modelled as exact rationals.  Python's `round(x, 2)` rounds
half to even; `pyRound2` implements that on `ℚ`.
-/

/-- Round to the nearest integer, ties to even (Python `round`). -/
def roundHalfEven (q : ℚ) : ℤ :=
  if q - (⌊q⌋ : ℚ) < 1/2 then ⌊q⌋
  else if 1/2 < q - (⌊q⌋ : ℚ) then ⌊q⌋ + 1
  else if ⌊q⌋ % 2 = 0 then ⌊q⌋ else ⌊q⌋ + 1

/-- Python `round(x, 2)`. -/
def pyRound2 (q : ℚ) : ℚ := (roundHalfEven (q * 100) : ℚ) / 100

/-- Model of `set([s.lower() for s in l])`. -/
def lowerSet (l : List PyStr) : Finset PyStr := (l.map lowerStr).toFinset

/-- Model of `RelevanceEvaluator.evaluate`. -/
def RelevanceEvaluator.evaluate (resume : Resume) (job_desc : JobDescription) :
    EvaluationResult :=
  let resume_skills := lowerSet resume.skills
  let must_have_skills := lowerSet job_desc.must_have_skills
  let good_to_have_skills := lowerSet job_desc.good_to_have_skills
  let matched_must_have := resume_skills ∩ must_have_skills
  let matched_good_to_have := resume_skills ∩ good_to_have_skills
  let matched_skills := matched_must_have ∪ matched_good_to_have
  let missing_skills := must_have_skills \ resume_skills
  let score0 : ℚ := 0
  let score1 := if must_have_skills ≠ ∅ then
      score0 + ((matched_must_have.card : ℚ) / (must_have_skills.card : ℚ)) * 50
    else score0
  let score2 := if good_to_have_skills ≠ ∅ then
      score1 + ((matched_good_to_have.card : ℚ) / (good_to_have_skills.card : ℚ)) * 20
    else score1
  let score3 := if resume.experience ≠ [] then score2 + 15 else score2
  let score4 := if resume.education ≠ [] then score3 + 10 else score3
  let score5 := if resume.projects ≠ [] then score4 + 5 else score4
  let score := min 100 score5
  let verdict := if score ≥ 75 then "HIGH".toList
    else if score ≥ 50 then "MEDIUM".toList
    else "LOW".toList
  { resume_id := resume.id
    job_id := job_desc.id
    relevance_score := pyRound2 score
    matched_skills := matched_skills
    missing_skills := missing_skills
    verdict := verdict }

/-!
UI actions and the session store

`upload_resume` and `upload_job_description` guard their inputs, call
the parsers/evaluator inside `try`/`except`, and append to the session
lists only on success.  A Python call that may raise an arbitrary
runtime exception is modelled as an `Except`-valued parameter.
-/

structure SessionStore where
  job_descriptions : List JobDescription
  evaluations : List EvaluationResult
deriving DecidableEq

/-- The `upload_resume` action: guards (at least one job description,
non-empty extracted text), then `try: parse; evaluate; append` with a
catch-all `except`. -/
def uploadResumeAction (store : SessionStore) (selectedIdx : ℕ) (resumeText : PyStr)
    (parseResume : PyStr → Except PyStr Resume)
    (evalResume : Resume → JobDescription → Except PyStr EvaluationResult) :
    SessionStore :=
  if store.job_descriptions = [] then store
  else
    match store.job_descriptions.get? selectedIdx with
    | none => store
    | some job =>
      if resumeText = [] then store
      else
        match parseResume resumeText with
        | .error _ => store
        | .ok r =>
          match evalResume r job with
          | .error _ => store
          | .ok ev => { store with evaluations := store.evaluations ++ [ev] }

/-- The `upload_job_description` action: validation (company name and
text required), then `try: parse; append` with a catch-all `except`. -/
def uploadJobDescriptionAction (store : SessionStore) (company location jdText : PyStr)
    (parseJD : PyStr → PyStr → PyStr → Except PyStr JobDescription) :
    SessionStore :=
  if company = [] then store
  else if jdText = [] then store
  else
    match parseJD jdText company location with
    | .error _ => store
    | .ok jd => { store with job_descriptions := store.job_descriptions ++ [jd] }

/-!
Helper views of the evaluator

`rawScore` and `clampedScore` name the intermediate score values of
`RelevanceEvaluator.evaluate` (the value of the Python variable `score`
after the five additions, and after `min(100, score)`), so that theorems
can speak about the score before the two-decimal rounding.  Both are
definitionally equal to the corresponding subterms of `evaluate`.
-/

/-- The score accumulated by the five conditional additions of
`evaluate`, before `min(100, score)`. -/
def rawScore (resume : Resume) (job_desc : JobDescription) : ℚ :=
  let resume_skills := lowerSet resume.skills
  let must_have_skills := lowerSet job_desc.must_have_skills
  let good_to_have_skills := lowerSet job_desc.good_to_have_skills
  let matched_must_have := resume_skills ∩ must_have_skills
  let matched_good_to_have := resume_skills ∩ good_to_have_skills
  let score0 : ℚ := 0
  let score1 := if must_have_skills ≠ ∅ then
      score0 + ((matched_must_have.card : ℚ) / (must_have_skills.card : ℚ)) * 50
    else score0
  let score2 := if good_to_have_skills ≠ ∅ then
      score1 + ((matched_good_to_have.card : ℚ) / (good_to_have_skills.card : ℚ)) * 20
    else score1
  let score3 := if resume.experience ≠ [] then score2 + 15 else score2
  let score4 := if resume.education ≠ [] then score3 + 10 else score3
  if resume.projects ≠ [] then score4 + 5 else score4

/-- The Python variable `score` after `score = min(100, score)`. -/
def clampedScore (resume : Resume) (job_desc : JobDescription) : ℚ :=
  min 100 (rawScore resume job_desc)

/-!
Concrete inputs for the boundary counterexample

A job with 67 distinct must-have skills (46 held by the candidate) and
15 distinct good-to-have skills (8 held), against a résumé with
experience, education and projects, scores
`50·46/67 + 20·8/15 + 30 = 15074/201 = 75 - 1/201 ≈ 74.995`: the verdict
threshold sees a score below 75, while `round(score, 2)` returns `75.0`.
-/

/-- Distinct lowercase must-have skill names `m a 0 … m g 6`. -/
def mNameX (i : ℕ) : PyStr := ['m', Char.ofNat (97 + i / 10), Char.ofNat (48 + i % 10)]

/-- Distinct lowercase good-to-have skill names `g a … g o`. -/
def gNameX (i : ℕ) : PyStr := ['g', Char.ofNat (97 + i)]

def resumeX : Resume :=
  { id := [], name := [], email := []
    skills := (List.range 46).map mNameX ++ (List.range 8).map gNameX
    experience := ["worked".toList]
    education := ["BACHELOR".toList]
    projects := ["demo".toList]
    raw_text := [] }

def jobX : JobDescription :=
  { id := [], title := [], company := []
    must_have_skills := (List.range 67).map mNameX
    good_to_have_skills := (List.range 15).map gNameX
    experience_required := [], description := [], location := [] }

def resumeW : Resume :=
  { id := [], name := [], email := [], skills := []
    experience := ["e".toList], education := ["b".toList], projects := ["p".toList]
    raw_text := [] }

def jobW : JobDescription :=
  { id := [], title := [], company := [], must_have_skills := []
    good_to_have_skills := [], experience_required := [], description := []
    location := [] }

def storeW : SessionStore := { job_descriptions := [jobW], evaluations := [] }

theorem evaluate_relevance_score (r : Resume) (j : JobDescription) :
    (RelevanceEvaluator.evaluate r j).relevance_score = pyRound2 (clampedScore r j) := rfl

theorem evaluate_verdict (r : Resume) (j : JobDescription) :
    (RelevanceEvaluator.evaluate r j).verdict =
      (if clampedScore r j ≥ 75 then "HIGH".toList
       else if clampedScore r j ≥ 50 then "MEDIUM".toList
       else "LOW".toList) := rfl

set_option maxRecDepth 40000 in
theorem clampedScore_jobX : clampedScore resumeX jobX = 15074/201 := by
  have h1 : (lowerSet resumeX.skills ∩ lowerSet jobX.must_have_skills).card = 46 := by decide
  have h2 : (lowerSet jobX.must_have_skills).card = 67 := by decide
  have h3 : (lowerSet resumeX.skills ∩ lowerSet jobX.good_to_have_skills).card = 8 := by decide
  have h4 : (lowerSet jobX.good_to_have_skills).card = 15 := by decide
  have h5 : lowerSet jobX.must_have_skills ≠ ∅ := by decide
  have h6 : lowerSet jobX.good_to_have_skills ≠ ∅ := by decide
  have h7 : resumeX.experience ≠ [] := by decide
  have h8 : resumeX.education ≠ [] := by decide
  have h9 : resumeX.projects ≠ [] := by decide
  rw [clampedScore]
  have hraw : rawScore resumeX jobX = 15074/201 := by
    simp only [rawScore, h1, h2, h3, h4, if_pos h5, if_pos h6, if_pos h7, if_pos h8, if_pos h9]
    norm_num
  rw [hraw]
  rw [min_eq_right (by norm_num)]

/-- C2 counterexample: at `resumeX`/`jobX` the returned relevance score
is exactly 75 yet the verdict is MEDIUM, so the verdict is not the
claimed threshold function of the returned score. -/
theorem C2_verdict_counterexample :
    (RelevanceEvaluator.evaluate resumeX jobX).relevance_score = 75 ∧
    (RelevanceEvaluator.evaluate resumeX jobX).relevance_score ≥ 75 ∧
    (RelevanceEvaluator.evaluate resumeX jobX).verdict ≠ "HIGH".toList := by
  have hscore : (RelevanceEvaluator.evaluate resumeX jobX).relevance_score = 75 := by
    rw [evaluate_relevance_score, clampedScore_jobX]
    have hfloor : ⌊(15074/201 : ℚ) * 100⌋ = 7499 := by
      rw [Int.floor_eq_iff]
      norm_num
    simp only [pyRound2, roundHalfEven, hfloor]
    norm_num
  refine ⟨hscore, le_of_eq hscore.symm, ?_⟩
  rw [evaluate_verdict, clampedScore_jobX]
  rw [if_neg (by norm_num), if_pos (by norm_num)]
  decide

/-!
Bounds for the rounding
-/

theorem pyRound2_bounds (q : ℚ) (h0 : 0 ≤ q) (h1 : q ≤ 100) :
    0 ≤ pyRound2 q ∧ pyRound2 q ≤ 100 := by
  have hx0 : (0 : ℚ) ≤ q * 100 := by linarith
  have hx1 : q * 100 ≤ 10000 := by linarith
  have hf0 : 0 ≤ ⌊q * 100⌋ := Int.floor_nonneg.mpr hx0
  have hfle : (⌊q * 100⌋ : ℚ) ≤ q * 100 := Int.floor_le _
  unfold pyRound2 roundHalfEven
  split_ifs with hr1 hr2 hpar
  · constructor
    · have : (0 : ℚ) ≤ (⌊q * 100⌋ : ℚ) := by exact_mod_cast hf0
      linarith
    · have : (⌊q * 100⌋ : ℚ) ≤ 10000 := by linarith
      linarith
  all_goals
    constructor
  all_goals
    first
    | (have : (0 : ℚ) ≤ (⌊q * 100⌋ : ℚ) := by exact_mod_cast hf0
       push_cast
       linarith)
    | (have hhalf : (⌊q * 100⌋ : ℚ) ≤ q * 100 - 1/2 := by linarith
       have hlt : (⌊q * 100⌋ : ℚ) < 10000 := by linarith
       have hle : ⌊q * 100⌋ ≤ 9999 := by
         have : ⌊q * 100⌋ < 10000 := by exact_mod_cast hlt
         omega
       have : (⌊q * 100⌋ : ℚ) ≤ 9999 := by exact_mod_cast hle
       push_cast
       linarith)

/-- The raw additive score is non-negative. -/
theorem rawScore_nonneg (r : Resume) (j : JobDescription) : 0 ≤ rawScore r j := by
  simp only [rawScore]
  split_ifs <;> positivity

/-- A list yields an empty lowercased skill set exactly when it is empty. -/
theorem lowerSet_eq_empty_iff (l : List PyStr) : lowerSet l = ∅ ↔ l = [] := by
  simp [lowerSet]

/-!
Claims about the evaluator
-/

/-- C1: for every résumé and job description, `evaluate` returns
`relevance_score = round(min(100, S), 2)` where `S` is the sum of: the
must-have coverage `(|résumé ∩ must-have| / |must-have|) × 50` over the
lowercased, deduplicated skill sets when the must-have set is non-empty
(0 when empty, not 100%), the good-to-have coverage `… × 20` when
non-empty (0 when empty), plus a flat 15 for a non-empty experience
list, 10 for non-empty education, and 5 for non-empty projects. -/
theorem C1_relevance_score_formula (r : Resume) (j : JobDescription) :
    (RelevanceEvaluator.evaluate r j).relevance_score =
      pyRound2 (min 100
        ((if j.must_have_skills ≠ [] then
            ((lowerSet r.skills ∩ lowerSet j.must_have_skills).card : ℚ)
              / ((lowerSet j.must_have_skills).card : ℚ) * 50
          else 0)
         + (if j.good_to_have_skills ≠ [] then
            ((lowerSet r.skills ∩ lowerSet j.good_to_have_skills).card : ℚ)
              / ((lowerSet j.good_to_have_skills).card : ℚ) * 20
          else 0)
         + (if r.experience ≠ [] then 15 else 0)
         + (if r.education ≠ [] then 10 else 0)
         + (if r.projects ≠ [] then 5 else 0))) := by
  rw [evaluate_relevance_score, clampedScore]
  congr 1
  congr 1
  simp only [rawScore, ne_eq, lowerSet_eq_empty_iff]
  split_ifs <;> ring

/-- C2 (amended): the returned relevance score always lies in [0, 100],
and the verdict is the fixed threshold function (HIGH iff ≥ 75, MEDIUM
iff ≥ 50, else LOW) of the clamped score `min(100, S)` *before* its
two-decimal rounding — not of the returned (rounded) score, which can
cross a threshold that the pre-rounding score is below. -/
theorem C2_score_bounds_and_verdict (r : Resume) (j : JobDescription) :
    0 ≤ (RelevanceEvaluator.evaluate r j).relevance_score ∧
    (RelevanceEvaluator.evaluate r j).relevance_score ≤ 100 ∧
    (RelevanceEvaluator.evaluate r j).verdict =
      (if clampedScore r j ≥ 75 then "HIGH".toList
       else if clampedScore r j ≥ 50 then "MEDIUM".toList
       else "LOW".toList) := by
  have h0 : 0 ≤ clampedScore r j := le_min (by norm_num) (rawScore_nonneg r j)
  have h1 : clampedScore r j ≤ 100 := min_le_left _ _
  have hb := pyRound2_bounds _ h0 h1
  rw [evaluate_relevance_score]
  exact ⟨hb.1, hb.2, evaluate_verdict r j⟩

/-- C3: matched skills are contained in the union of the (lowercased)
must-have and good-to-have skill sets, missing skills are contained in
the must-have set (good-to-have gaps are never reported missing), and
no missing skill is held by the candidate. -/
theorem C3_matched_missing_skills (r : Resume) (j : JobDescription) :
    (RelevanceEvaluator.evaluate r j).matched_skills ⊆
      lowerSet j.must_have_skills ∪ lowerSet j.good_to_have_skills ∧
    (RelevanceEvaluator.evaluate r j).missing_skills ⊆ lowerSet j.must_have_skills ∧
    (RelevanceEvaluator.evaluate r j).missing_skills ∩ lowerSet r.skills = ∅ := by
  refine ⟨?_, ?_, ?_⟩
  · show (lowerSet r.skills ∩ lowerSet j.must_have_skills) ∪
        (lowerSet r.skills ∩ lowerSet j.good_to_have_skills) ⊆ _
    exact Finset.union_subset_union Finset.inter_subset_right Finset.inter_subset_right
  · show lowerSet j.must_have_skills \ lowerSet r.skills ⊆ _
    exact Finset.sdiff_subset
  · show (lowerSet j.must_have_skills \ lowerSet r.skills) ∩ lowerSet r.skills = ∅
    exact Finset.sdiff_inter_self _ _

/-- C4: with non-empty experience, education and projects and both job
skill lists empty, the score is exactly 15 + 10 + 5 = 30 and the verdict
is LOW (an empty must-have set contributes 0, not 100%). -/
theorem C4_empty_job_bonus_score (r : Resume) (j : JobDescription)
    (hexp : r.experience ≠ []) (hedu : r.education ≠ []) (hproj : r.projects ≠ [])
    (hmust : j.must_have_skills = []) (hgood : j.good_to_have_skills = []) :
    (RelevanceEvaluator.evaluate r j).relevance_score = 30 ∧
    (RelevanceEvaluator.evaluate r j).verdict = "LOW".toList := by
  have hraw : rawScore r j = 30 := by
    simp only [rawScore, hmust, hgood, lowerSet, List.map_nil, List.toFinset_nil, ne_eq,
      not_true_eq_false, if_false, if_pos hexp, if_pos hedu, if_pos hproj]
    norm_num
  have hclamp : clampedScore r j = 30 := by
    rw [clampedScore, hraw]
    exact min_eq_right (by norm_num)
  refine ⟨?_, ?_⟩
  · rw [evaluate_relevance_score, hclamp]
    have hfloor : ⌊(30 : ℚ) * 100⌋ = 3000 := by
      rw [Int.floor_eq_iff]
      norm_num
    simp only [pyRound2, roundHalfEven, hfloor]
    norm_num
  · rw [evaluate_verdict, hclamp]
    rw [if_neg (by norm_num), if_neg (by norm_num)]

/-- Witness for C4 at a concrete résumé and job. -/
theorem C4_empty_job_bonus_score_witness :
    resumeW.experience ≠ [] ∧ resumeW.education ≠ [] ∧ resumeW.projects ≠ [] ∧
    jobW.must_have_skills = [] ∧ jobW.good_to_have_skills = [] ∧
    ((RelevanceEvaluator.evaluate resumeW jobW).relevance_score = 30 ∧
     (RelevanceEvaluator.evaluate resumeW jobW).verdict = "LOW".toList) :=
  ⟨by decide, by decide, by decide, rfl, rfl,
   C4_empty_job_bonus_score resumeW jobW (by decide) (by decide) (by decide) rfl rfl⟩

/-!
Claim about the UI-action boundary
-/

/-- C9: an exception raised by `ResumeParser.parse` or
`RelevanceEvaluator.evaluate` inside the resume-evaluation action, or by
`JobDescriptionParser.parse` inside the job-description action, is
caught at the action boundary and nothing is committed to the session
store; likewise nothing is appended when the company name or the
job-description text is missing. -/
theorem C9_no_commit_on_failure :
    (∀ (store : SessionStore) (idx : ℕ) (t : PyStr)
        (pR : PyStr → Except PyStr Resume)
        (eR : Resume → JobDescription → Except PyStr EvaluationResult) (e : PyStr),
        pR t = .error e → uploadResumeAction store idx t pR eR = store) ∧
    (∀ (store : SessionStore) (idx : ℕ) (t : PyStr)
        (pR : PyStr → Except PyStr Resume)
        (eR : Resume → JobDescription → Except PyStr EvaluationResult)
        (r : Resume) (job : JobDescription) (e : PyStr),
        store.job_descriptions.get? idx = some job → pR t = .ok r →
        eR r job = .error e → uploadResumeAction store idx t pR eR = store) ∧
    (∀ (store : SessionStore) (company location jdText : PyStr)
        (pJ : PyStr → PyStr → PyStr → Except PyStr JobDescription),
        (company = [] ∨ jdText = [] ∨ ∃ e, pJ jdText company location = .error e) →
        uploadJobDescriptionAction store company location jdText pJ = store) := by
  refine ⟨?_, ?_, ?_⟩
  · intro store idx t pR eR e hp
    unfold uploadResumeAction
    by_cases h1 : store.job_descriptions = []
    · rw [if_pos h1]
    · rw [if_neg h1]
      cases hg : store.job_descriptions.get? idx with
      | none => rfl
      | some job =>
        by_cases h2 : t = []
        · simp [h2]
        · simp [h2, hp]
  · intro store idx t pR eR r job e hg hp he
    unfold uploadResumeAction
    by_cases h1 : store.job_descriptions = []
    · rw [if_pos h1]
    · rw [if_neg h1, hg]
      by_cases h2 : t = []
      · simp [h2]
      · simp [h2, hp, he]
  · intro store company location jdText pJ h
    unfold uploadJobDescriptionAction
    rcases h with h | h | ⟨e, h⟩
    · rw [if_pos h]
    · by_cases h1 : company = []
      · rw [if_pos h1]
      · rw [if_neg h1, if_pos h]
    · by_cases h1 : company = []
      · rw [if_pos h1]
      · rw [if_neg h1]
        by_cases h2 : jdText = []
        · rw [if_pos h2]
        · rw [if_neg h2, h]

/-- Witness for C9: concrete failing parse/evaluate calls leave the
concrete store unchanged. -/
theorem C9_no_commit_on_failure_witness :
    uploadResumeAction storeW 0 "x".toList (fun _ => .error []) (fun _ _ => .error []) = storeW ∧
    uploadResumeAction storeW 0 "x".toList (fun _ => .ok resumeW) (fun _ _ => .error []) = storeW ∧
    uploadJobDescriptionAction storeW [] "loc".toList "text".toList (fun _ _ _ => .ok jobW) = storeW :=
  ⟨C9_no_commit_on_failure.1 storeW 0 _ _ _ [] rfl,
   C9_no_commit_on_failure.2.1 storeW 0 _ _ _ resumeW jobW [] rfl rfl rfl,
   C9_no_commit_on_failure.2.2 storeW [] _ _ _ (Or.inl rfl)⟩

/-!
Properties of `_clean_text`
-/

theorem dropWhile_head_false {p : Char → Bool} {l : PyStr} {c : Char}
    (h : (l.dropWhile p).head? = some c) : p c = false := by
  induction l with
  | nil => simp at h
  | cons a rest ih =>
    rw [List.dropWhile_cons] at h
    by_cases hp : p a
    · rw [if_pos hp] at h
      exact ih h
    · rw [if_neg hp] at h
      simp at h
      rw [← h]
      simpa using hp

theorem dropWhile_eq_self_of_head {p : Char → Bool} {l : PyStr}
    (h : ∀ c, l.head? = some c → p c = false) : l.dropWhile p = l := by
  cases l with
  | nil => rfl
  | cons a rest =>
    rw [List.dropWhile_cons, if_neg]
    simp [h a rfl]

theorem mem_of_mem_dropWhile {p : Char → Bool} {l : PyStr} {c : Char}
    (h : c ∈ l.dropWhile p) : c ∈ l :=
  (List.dropWhile_sublist p).subset h

theorem mem_of_mem_squeezeSpaces {l : PyStr} {c : Char}
    (h : c ∈ squeezeSpaces l) : c ∈ l := by
  induction l with
  | nil => simp [squeezeSpaces] at h
  | cons a rest ih =>
    cases rest with
    | nil => simpa [squeezeSpaces] using h
    | cons b rest2 =>
      rw [squeezeSpaces] at h
      split_ifs at h with hab
      · exact List.mem_cons_of_mem a (ih h)
      · rcases List.mem_cons.mp h with h | h
        · exact h ▸ List.mem_cons_self a _
        · exact List.mem_cons_of_mem a (ih h)

theorem mem_of_mem_trimSpaces {l : PyStr} {c : Char}
    (h : c ∈ trimSpaces l) : c ∈ l := by
  unfold trimSpaces at h
  rw [List.mem_reverse] at h
  have h2 := mem_of_mem_dropWhile h
  rw [List.mem_reverse] at h2
  exact mem_of_mem_dropWhile h2

/-- Every whitespace character surviving `_clean_text` is a plain space. -/
theorem cleanChars_space {s : PyStr} {c : Char} (hc : c ∈ cleanChars s)
    (hsp : isPySpace c = true) : c = ' ' := by
  unfold cleanChars at hc
  have h1 := mem_of_mem_squeezeSpaces (mem_of_mem_trimSpaces hc)
  rcases List.mem_map.mp h1 with ⟨a, _, ha⟩
  by_cases h : isPySpace a
  · rw [← ha, if_pos h]
  · rw [← ha, if_neg h] at hsp
    exact absurd hsp (by simpa using h)

/-- The output of `_clean_text` contains no newline. -/
theorem cleanChars_no_newline (s : PyStr) : '\n' ∉ cleanChars s := by
  intro h
  have := cleanChars_space h (by decide)
  exact absurd this (by decide)

theorem pySplitOn_of_not_mem {sep : Char} {l : PyStr} (h : sep ∉ l) :
    pySplitOn sep l = [l] := by
  induction l with
  | nil => rfl
  | cons c rest ih =>
    rw [pySplitOn, if_neg (by intro hc; exact h (by rw [← hc]; exact List.mem_cons_self c rest)),
      ih (fun hc => h (List.mem_cons_of_mem c hc))]

/-!
The stripped, newline-free shape of cleaned text
-/

theorem mem_of_head? {l : PyStr} {c : Char} (h : l.head? = some c) : c ∈ l := by
  cases l with
  | nil => simp at h
  | cons a rest =>
    simp at h
    rw [← h]
    exact List.mem_cons_self a rest

theorem getLast?_dropWhile {q : Char → Bool} {l : PyStr}
    (h : l.dropWhile q ≠ []) : (l.dropWhile q).getLast? = l.getLast? := by
  induction l with
  | nil => exact absurd rfl h
  | cons a rest ih =>
    rw [List.dropWhile_cons]
    by_cases hq : q a
    · rw [if_pos hq]
      rw [List.dropWhile_cons, if_pos hq] at h
      rw [ih h]
      have hr : rest ≠ [] := by
        intro he
        rw [he] at h
        exact absurd rfl h
      cases rest with
      | nil => exact absurd rfl hr
      | cons b r2 => rw [List.getLast?_cons_cons]
    · rw [if_neg hq]

/-- The first character of cleaned text (if any) is not whitespace. -/
theorem cleanChars_head {s : PyStr} {c : Char}
    (h : (cleanChars s).head? = some c) : isPySpace c = false := by
  have hmem : c ∈ cleanChars s := mem_of_head? h
  unfold cleanChars trimSpaces at h
  rw [List.head?_reverse] at h
  have hne : (((squeezeSpaces (s.map (fun c => if isPySpace c then ' ' else c))).dropWhile
      (· = ' ')).reverse.dropWhile (· = ' ')) ≠ [] := by
    intro he
    rw [he] at h
    simp at h
  rw [getLast?_dropWhile hne, List.getLast?_reverse] at h
  have hq : (decide (c = ' ')) = false := dropWhile_head_false h
  by_cases hP : isPySpace c
  · have := cleanChars_space hmem hP
    rw [this] at hq
    simp at hq
  · simpa using hP

/-- The last character of cleaned text (if any) is not whitespace. -/
theorem cleanChars_last {s : PyStr} {c : Char}
    (h : (cleanChars s).reverse.head? = some c) : isPySpace c = false := by
  have hmem : c ∈ cleanChars s := by
    rw [← List.mem_reverse]
    exact mem_of_head? h
  unfold cleanChars trimSpaces at h
  rw [List.reverse_reverse] at h
  have hq : (decide (c = ' ')) = false := dropWhile_head_false h
  by_cases hP : isPySpace c
  · have := cleanChars_space hmem hP
    rw [this] at hq
    simp at hq
  · simpa using hP

/-- Applying `str.strip()` to cleaned text leaves it unchanged. -/
theorem pyStrip_cleanChars (s : PyStr) : pyStrip (cleanChars s) = cleanChars s := by
  unfold pyStrip
  rw [dropWhile_eq_self_of_head (fun c hc => cleanChars_head hc)]
  rw [dropWhile_eq_self_of_head (fun c hc => cleanChars_last hc)]
  exact List.reverse_reverse _

/-- Cleaned text has no newline, so `split('\n')` returns it whole. -/
theorem pySplitOn_cleanChars (s : PyStr) :
    pySplitOn '\n' (cleanChars s) = [cleanChars s] :=
  pySplitOn_of_not_mem (cleanChars_no_newline s)

/-!
Captures are part of the text
-/

theorem sepTail_suffix (r : PyStr) : sepTail r <:+ r := by
  unfold sepTail
  split
  · next rest heq =>
    have h1 : rest.dropWhile isPySpace <:+ rest := List.dropWhile_suffix _
    have h2 : rest <:+ ':' :: rest := List.suffix_cons ':' rest
    have h3 : (':' :: rest) <:+ r := by
      rw [← heq]
      exact List.dropWhile_suffix _
    exact (h1.trans h2).trans h3
  · next heq => exact List.dropWhile_suffix _

theorem getLastD_singleton_suffix {r : PyStr} (h : r ≠ []) (d : Char) :
    [r.getLastD d] <:+ r := by
  induction r generalizing d with
  | nil => exact absurd rfl h
  | cons a rest ih =>
    cases rest with
    | nil => exact List.suffix_refl _
    | cons b r2 =>
      rw [List.getLastD_cons]
      exact ((ih (by simp) a).trans (List.suffix_cons a _))

theorem capAfterSep_suffix {r cap : PyStr} (h : capAfterSep r = some cap) :
    cap <:+ r := by
  unfold capAfterSep at h
  split_ifs at h with h1 h2
  · rw [Option.some.injEq] at h
    rw [← h]
    exact getLastD_singleton_suffix h1 ' '
  · rw [Option.some.injEq] at h
    rw [← h]
    exact sepTail_suffix r

theorem capAfterSep_ne_nil {r cap : PyStr} (h : capAfterSep r = some cap) :
    cap ≠ [] := by
  unfold capAfterSep at h
  split_ifs at h with h1 h2
  · rw [Option.some.injEq] at h
    rw [← h]
    simp
  · rw [Option.some.injEq] at h
    rw [← h]
    exact h2

/-- A successful section search returns a non-empty capture that occurs
inside the text. -/
theorem searchCapture_spec {head : PyStr → List PyStr}
    (hhead : ∀ s r, r ∈ head s → r <:+ s) :
    ∀ {l cap : PyStr}, searchCapture head l = some cap → cap <:+: l ∧ cap ≠ [] := by
  intro l
  induction l with
  | nil =>
    intro cap h
    rw [searchCapture] at h
    obtain ⟨r, hr, hc⟩ := List.exists_of_findSome?_eq_some h
    obtain ⟨u, hu⟩ := hhead [] r hr
    have hrnil : r = [] := by
      cases List.append_eq_nil.mp hu with
      | intro h1 h2 => exact h2
    rw [hrnil] at hc
    rw [capAfterSep, if_pos rfl] at hc
    exact absurd hc (by simp)
  | cons a rest ih =>
    intro cap h
    rw [searchCapture] at h
    cases hfs : (head (a :: rest)).findSome? capAfterSep with
    | some c =>
      rw [hfs] at h
      rw [Option.some.injEq] at h
      obtain ⟨r, hr, hc⟩ := List.exists_of_findSome?_eq_some hfs
      rw [h] at hc
      have hsuf : cap <:+ a :: rest := (capAfterSep_suffix hc).trans (hhead _ r hr)
      obtain ⟨u, hu⟩ := hsuf
      exact ⟨⟨u, [], by rw [List.append_nil]; exact hu⟩, capAfterSep_ne_nil hc⟩
    | none =>
      rw [hfs] at h
      obtain ⟨⟨u, v, huv⟩, hne⟩ := ih h
      exact ⟨⟨a :: u, v, by simp [← huv]⟩, hne⟩

theorem headExperience_suffix : ∀ s r, r ∈ headExperience s → r <:+ s := by
  intro s r hr
  unfold headExperience at hr
  cases hm : matchLit "experience".toList s with
  | none => rw [hm] at hr; simp at hr
  | some r2 =>
    rw [hm] at hr
    simp at hr
    rw [hr]
    unfold matchLit at hm
    split_ifs at hm with hc
    · rw [Option.some.injEq] at hm
      rw [← hm]
      exact List.drop_suffix _ _

/-!
Claims about the parsers
-/

/-- C5: parsing is idempotent up to the identifier — two `parse` calls on
the same text (at possibly different times) agree on every field except
`id`, which is derived from content plus the current time. -/
theorem C5_parse_deterministic (md5Hex : PyStr → PyStr) (now1 now2 : PyStr) (t : PyStr) :
    (ResumeParser.parse md5Hex now1 t).name = (ResumeParser.parse md5Hex now2 t).name ∧
    (ResumeParser.parse md5Hex now1 t).email = (ResumeParser.parse md5Hex now2 t).email ∧
    (ResumeParser.parse md5Hex now1 t).skills = (ResumeParser.parse md5Hex now2 t).skills ∧
    (ResumeParser.parse md5Hex now1 t).experience =
      (ResumeParser.parse md5Hex now2 t).experience ∧
    (ResumeParser.parse md5Hex now1 t).education =
      (ResumeParser.parse md5Hex now2 t).education ∧
    (ResumeParser.parse md5Hex now1 t).projects = (ResumeParser.parse md5Hex now2 t).projects ∧
    (ResumeParser.parse md5Hex now1 t).raw_text = (ResumeParser.parse md5Hex now2 t).raw_text :=
  ⟨rfl, rfl, rfl, rfl, rfl, rfl, rfl⟩

/-- C6: the candidate name is the first line of the normalized text when
it has at most 4 words and more than 2 characters, else the sentinel;
and because normalization collapses all whitespace the "first line" is
the entire normalized text. -/
theorem C6_name_extraction (t : PyStr) :
    ResumeParser.extractName (cleanChars t) =
      (if (pyWords (cleanChars t)).length ≤ 4 ∧ (cleanChars t).length > 2
       then cleanChars t
       else "Unknown Candidate".toList) := by
  unfold ResumeParser.extractName
  rw [pySplitOn_cleanChars]
  simp only [List.headD_cons]
  rw [pyStrip_cleanChars]

/-- C7: the title is the capture of the first matching pattern among
`Job Title:`, `Position:`, `Role:` in that order; with no match it is
the first line of the normalized text (the whole text) whenever that is
at most 80 characters, and only otherwise the literal
`Software Developer`. -/
theorem C7_title_extraction (t : PyStr) :
    JobDescriptionParser.extractTitle (cleanChars t) =
      (match searchCapture headJobTitle (cleanChars t) with
       | some g => pyStrip g
       | none =>
         match searchCapture headPosition (cleanChars t) with
         | some g => pyStrip g
         | none =>
           match searchCapture headRole (cleanChars t) with
           | some g => pyStrip g
           | none =>
             if (cleanChars t).length ≤ 80 then cleanChars t
             else "Software Developer".toList) ∧
    (searchCapture headJobTitle (cleanChars t) = none →
     searchCapture headPosition (cleanChars t) = none →
     searchCapture headRole (cleanChars t) = none →
     (cleanChars t).length ≤ 80 →
     JobDescriptionParser.extractTitle (cleanChars t) = cleanChars t) := by
  constructor
  · unfold JobDescriptionParser.extractTitle
    cases searchCapture headJobTitle (cleanChars t) with
    | some g => rfl
    | none =>
      cases searchCapture headPosition (cleanChars t) with
      | some g => rfl
      | none =>
        cases searchCapture headRole (cleanChars t) with
        | some g => rfl
        | none =>
          rw [pySplitOn_cleanChars]
          simp only [List.headD_cons]
          rw [pyStrip_cleanChars]
  · intro h1 h2 h3 h4
    unfold JobDescriptionParser.extractTitle
    rw [h1, h2, h3, pySplitOn_cleanChars]
    simp only [List.headD_cons]
    rw [if_pos h4, pyStrip_cleanChars]

/-- Witness for C7: a short text with no title pattern falls back to the
first line (the whole normalized text), not to `Software Developer`. -/
theorem C7_title_extraction_witness :
    JobDescriptionParser.extractTitle (cleanChars "hello".toList) =
      cleanChars "hello".toList :=
  (C7_title_extraction "hello".toList).2 (by decide) (by decide) (by decide) (by decide)

/-- C8: the experience list is `[first 300 characters of the capture]`
when the `Experience:` heading pattern matches (the capture being a
non-empty part of the text after the heading), `[]` when it does not,
and in particular never has more than one entry. -/
theorem C8_experience_extraction (t : PyStr) :
    (∀ cap, searchCapture headExperience (cleanChars t) = some cap →
      ResumeParser.extractExperience (cleanChars t) = [cap.take 300] ∧
      cap <:+: cleanChars t ∧ cap ≠ []) ∧
    (searchCapture headExperience (cleanChars t) = none →
      ResumeParser.extractExperience (cleanChars t) = []) ∧
    (ResumeParser.extractExperience (cleanChars t)).length ≤ 1 ∧
    (∀ e ∈ ResumeParser.extractExperience (cleanChars t), e.length ≤ 300) := by
  refine ⟨?_, ?_, ?_, ?_⟩
  · intro cap hc
    refine ⟨?_, (searchCapture_spec headExperience_suffix hc).1,
      (searchCapture_spec headExperience_suffix hc).2⟩
    unfold ResumeParser.extractExperience
    rw [hc]
  · intro hn
    unfold ResumeParser.extractExperience
    rw [hn]
  · unfold ResumeParser.extractExperience
    cases searchCapture headExperience (cleanChars t) with
    | some cap => simp
    | none => simp
  · intro e he
    unfold ResumeParser.extractExperience at he
    cases hc : searchCapture headExperience (cleanChars t) with
    | some cap =>
      rw [hc] at he
      simp at he
      rw [he]
      simp [List.length_take]
    | none =>
      rw [hc] at he
      simp at he

/-- Witness for C8 on a concrete résumé text with an `Experience:`
section. -/
theorem C8_experience_extraction_witness :
    ResumeParser.extractExperience (cleanChars "Experience: built things".toList) =
      [("built things".toList).take 300] ∧
    "built things".toList <:+: cleanChars "Experience: built things".toList ∧
    "built things".toList ≠ [] :=
  (C8_experience_extraction "Experience: built things".toList).1
    "built things".toList (by decide)

/-!
Skill-extractor invariants
-/

theorem toNat_ofNat_valid (n : Nat) (h : n.isValidChar) : (Char.ofNat n).toNat = n := by
  simp [Char.ofNat, h, Char.ofNatAux, Char.toNat, UInt32.toNat, BitVec.toNat_ofNatLt]

theorem lowerChar_idem (c : Char) : lowerChar (lowerChar c) = lowerChar c := by
  unfold lowerChar Char.toLower
  by_cases h : 65 ≤ c.toNat ∧ c.toNat ≤ 90
  · rw [if_pos h]
    have hv : Nat.isValidChar (c.toNat + 32) := Or.inl (by omega)
    have ht : (Char.ofNat (c.toNat + 32)).toNat = c.toNat + 32 := toNat_ofNat_valid _ hv
    rw [if_neg]
    rw [ht]
    omega
  · rw [if_neg h, if_neg h]

theorem lowerStr_idem (s : PyStr) : lowerStr (lowerStr s) = lowerStr s := by
  induction s with
  | nil => rfl
  | cons c cs ih =>
    show lowerChar (lowerChar c) :: lowerStr (lowerStr cs) = lowerChar c :: lowerStr cs
    rw [lowerChar_idem, ih]

theorem length_lowerStr (s : PyStr) : (lowerStr s).length = s.length :=
  List.length_map s lowerChar

/-- Members added by the `_extract_skills` section loop are lowercase
tokens longer than two characters (or were already accumulated). -/
theorem mem_addSectionSkills {acc toks : List PyStr} {x : PyStr}
    (hx : x ∈ addSectionSkills acc toks) :
    x ∈ acc ∨ (lowerStr x = x ∧ 3 ≤ x.length) := by
  induction toks generalizing acc with
  | nil => exact Or.inl hx
  | cons sk rest ih =>
    simp only [addSectionSkills] at hx
    split_ifs at hx with hcond
    · rcases ih hx with hmem | hp
      · rcases List.mem_append.mp hmem with h | h
        · exact Or.inl h
        · simp at h
          right
          rw [h]
          have hlen : 2 < (lowerStr (pyStrip sk)).length := by
            rcases Bool.and_eq_true_iff.mp hcond with ⟨h1, _⟩
            exact of_decide_eq_true h1
          exact ⟨lowerStr_idem _, by omega⟩
      · exact Or.inr hp
    · rcases ih hx with h | hp
      · exact Or.inl h
      · exact Or.inr hp

/-- Members produced by the job-description token comprehension are
lowercase and longer than two characters. -/
theorem mem_sectionTokens {cap : PyStr} {x : PyStr} (hx : x ∈ sectionTokens cap) :
    lowerStr x = x ∧ 3 ≤ x.length := by
  obtain ⟨s, _, hf⟩ := List.mem_filterMap.mp hx
  simp only [] at hf
  split_ifs at hf with hcond
  · rw [Option.some.injEq] at hf
    rw [← hf]
    refine ⟨lowerStr_idem _, ?_⟩
    rw [length_lowerStr]
    omega

theorem extractSkills_spec (t : PyStr) :
    (∀ x ∈ ResumeParser.extractSkills t, lowerStr x = x ∧ 3 ≤ x.length) ∧
    (ResumeParser.extractSkills t).Nodup := by
  have hvocab : ∀ x ∈ techSkillsVocab, lowerStr x = x ∧ 3 ≤ x.length := by decide
  constructor
  · intro x hx
    simp only [ResumeParser.extractSkills, pySetList, List.mem_dedup] at hx
    cases hsc : searchCapture headSkills t with
    | some cap =>
      rw [hsc] at hx
      rcases mem_addSectionSkills hx with hmem | hp
      · exact hvocab x (List.mem_filter.mp hmem).1
      · exact hp
    | none =>
      rw [hsc] at hx
      exact hvocab x (List.mem_filter.mp hx).1
  · simp only [ResumeParser.extractSkills, pySetList]
    exact List.nodup_dedup _

theorem extractMustHaveSkills_spec (t : PyStr) :
    (∀ x ∈ JobDescriptionParser.extractMustHaveSkills t, lowerStr x = x ∧ 3 ≤ x.length) ∧
    (JobDescriptionParser.extractMustHaveSkills t).Nodup := by
  have hfb : ∀ x ∈ jdFallbackSkills, lowerStr x = x ∧ 3 ≤ x.length := by decide
  constructor
  · intro x hx
    simp only [JobDescriptionParser.extractMustHaveSkills, pySetList] at hx
    have hx2 := List.mem_dedup.mp (List.take_subset 15 _ hx)
    split_ifs at hx2 with hempty
    · exact hfb x (List.mem_filter.mp hx2).1
    · cases h1 : searchCapture headRequiredSkills t with
      | some cap =>
        rw [h1] at hx2
        exact mem_sectionTokens hx2
      | none =>
        rw [h1] at hx2
        cases h2 : searchCapture headMustHave t with
        | some cap =>
          rw [h2] at hx2
          exact mem_sectionTokens hx2
        | none =>
          rw [h2] at hx2
          cases h3 : searchCapture headMandatory t with
          | some cap =>
            rw [h3] at hx2
            exact mem_sectionTokens hx2
          | none =>
            rw [h3] at hx2
            simp at hx2
  · exact List.Nodup.sublist (List.take_sublist 15 _) (List.nodup_dedup _)

theorem extractGoodToHaveSkills_spec (t : PyStr) :
    (∀ x ∈ JobDescriptionParser.extractGoodToHaveSkills t, lowerStr x = x ∧ 3 ≤ x.length) ∧
    (JobDescriptionParser.extractGoodToHaveSkills t).Nodup := by
  constructor
  · intro x hx
    simp only [JobDescriptionParser.extractGoodToHaveSkills, pySetList] at hx
    have hx2 := List.mem_dedup.mp (List.take_subset 10 _ hx)
    cases h1 : searchCapture headGoodToHave t with
    | some cap =>
      rw [h1] at hx2
      exact mem_sectionTokens hx2
    | none =>
      rw [h1] at hx2
      cases h2 : searchCapture headPreferred t with
      | some cap =>
        rw [h2] at hx2
        exact mem_sectionTokens hx2
      | none =>
        rw [h2] at hx2
        cases h3 : searchCapture headNiceToHave t with
        | some cap =>
          rw [h3] at hx2
          exact mem_sectionTokens hx2
        | none =>
          rw [h3] at hx2
          simp at hx2
  · exact List.Nodup.sublist (List.take_sublist 10 _) (List.nodup_dedup _)

/-- C10: every skill string returned by the three skill extractors is
already lowercase (equal to its own lowercasing) and at least three
characters long, and each returned list is duplicate-free. -/
theorem C10_skill_list_invariants (t : PyStr) :
    (∀ s ∈ ResumeParser.extractSkills t, lowerStr s = s ∧ 3 ≤ s.length) ∧
    (ResumeParser.extractSkills t).Nodup ∧
    (∀ s ∈ JobDescriptionParser.extractMustHaveSkills t, lowerStr s = s ∧ 3 ≤ s.length) ∧
    (JobDescriptionParser.extractMustHaveSkills t).Nodup ∧
    (∀ s ∈ JobDescriptionParser.extractGoodToHaveSkills t, lowerStr s = s ∧ 3 ≤ s.length) ∧
    (JobDescriptionParser.extractGoodToHaveSkills t).Nodup :=
  ⟨(extractSkills_spec t).1, (extractSkills_spec t).2,
   (extractMustHaveSkills_spec t).1, (extractMustHaveSkills_spec t).2,
   (extractGoodToHaveSkills_spec t).1, (extractGoodToHaveSkills_spec t).2⟩

/-- Witness for C10: the skill `python` extracted from a concrete text
is lowercase and long enough. -/
theorem C10_skill_list_invariants_witness :
    lowerStr "python".toList = "python".toList ∧ 3 ≤ ("python".toList).length :=
  (C10_skill_list_invariants "skills: python".toList).1 "python".toList (by decide)
